import Mathlib

/-!
Shallow embedding of `weed/filer2/filer.go` (package `filer2`).

The Filer orchestrates a hierarchical namespace of entries over a pluggable
Entry Store, a TTL directory cache, and best-effort chunk reclamation.
External collaborators (Entry Store backend, ccache, wdclient, volume-server
deletion) are not part of the source file; where their behaviour matters they
are modelled from the spec and documented as such.  Machine integers of the
source (uint32 mode bits, int TTL minutes) are modelled as `Nat`; Go's
multiple-value `(T, error)` returns become `Option`/`Except`; the effects of
the code (store mutation, cache mutation, insert calls, chunk-deletion
dispatches) are threaded through an explicit `FilerState`.
-/

/-- A chunk reference (`filer_pb.FileChunk`): only the opaque `FileId`
identifier is relevant to the filer logic in this file. -/
structure FileChunk where
  fileId : String
  deriving Repr, DecidableEq

/-- Entry attributes (`filer2.Attr` as used by `filer.go`): modify time,
create time, a mode value (Go `os.FileMode`, a `uint32` modelled as `Nat`,
directory bit 31 plus permission bits), owner uid and gid. -/
structure Attr where
  mtime : Nat
  crtime : Nat
  mode : Nat
  uid : Nat
  gid : Nat
  deriving Repr, DecidableEq

/-- A namespace entry (`filer2.Entry`): absolute path, attributes and an
ordered chunk list (empty for directories). -/
structure Entry where
  fullPath : String
  attr : Attr
  chunks : List FileChunk
  deriving Repr, DecidableEq

/-- Go `os.ModeDir`: bit 31 of the `uint32` `os.FileMode`. -/
def modeDir : Nat := 2 ^ 31

/-- Modelled from the spec: `Entry.IsDirectory` (defined in `entry.go`, not
part of this source file) — "an entry is a directory iff its mode's directory
bit is set". -/
def Entry.isDirectory (e : Entry) : Bool := e.attr.mode.testBit 31

/-- The per-chunk deletions dispatched by `Filer.deleteChunks`: one
`DeleteFileByFileId` call per chunk, identified by its `FileId`. -/
def deleteChunks (chunks : List FileChunk) : List String :=
  chunks.map (fun c => c.fileId)

/-- Shallow embedding of `Filer.deleteChunksIfNotNew` (filer.go:223-247).
Result: the `FileId`s whose deletion is dispatched (in dispatch order),
paired with `true` when the Go code faults.  When `newEntry == nil` the code
calls `f.deleteChunks(oldEntry.Chunks)` but does not return; the subsequent
`range newEntry.Chunks` then dereferences the nil pointer and panics as soon
as `oldEntry.Chunks` is non-empty (with an empty chunk list the loop body
never runs and the call returns normally). -/
def deleteChunksIfNotNew (oldEntry newEntry : Option Entry) : List String × Bool :=
  match oldEntry with
  | none => ([], false)
  | some old =>
    match newEntry with
    | none =>
      if old.chunks.isEmpty then (deleteChunks old.chunks, false)
      else (deleteChunks old.chunks, true)
    | some new =>
      let toDelete := old.chunks.filter
        (fun oldChunk => !(new.chunks.any (fun newChunk => newChunk.fileId == oldChunk.fileId)))
      (deleteChunks toDelete, false)

/-- Go `minutes := 60; if level < 10 { minutes -= level * 6 }` from
`cacheSetDirectory` (filer.go:199-202). -/
def ttlMinutes (level : Nat) : Nat :=
  if level < 10 then 60 - level * 6 else 60

/-- Shallow embedding of `Filer.DeleteFileByFileId` (filer.go:213-221).
`lookupFileId` models the external `MasterClient.LookupFileId` collaborator;
modelled from the spec: the Chunk Locator capability returns
`(location, error)`, where a failed Go lookup yields the zero-value location
`""` alongside the error.  The result is the list of
`(fileUrlOnVolume, jwt)` argument pairs passed to
`operation.DeleteFromVolumeServer`; both the lookup error and the deletion
error are only logged, never returned. -/
def DeleteFileByFileId (lookupFileId : String → Except String String)
    (fileId : String) : List (String × String) :=
  let fileUrlOnVolume :=
    match lookupFileId fileId with
    | Except.ok url => url
    | Except.error _ => ""
  [(fileUrlOnVolume, "")]

/-- Embedding of `strings.Split(s, "/")` on the character list of `s`
(structural recursion, so that concrete runs reduce in the kernel). -/
def splitOnSlash : List Char → List (List Char)
  | [] => [[]]
  | c :: cs =>
    let r := splitOnSlash cs
    if c = '/' then [] :: r
    else
      match r with
      | [] => [[c]]
      | h :: t => (c :: h) :: t

/-- `strings.Split(string(entry.FullPath), "/")` (filer.go:49). -/
def splitPath (s : String) : List String :=
  (splitOnSlash s.data).map String.mk

/-- Join character-list segments with a single `/` separator. -/
def joinSlash : List (List Char) → List Char
  | [] => []
  | [x] => x
  | x :: y :: rest => x ++ '/' :: joinSlash (y :: rest)

/-- `filepath.Join(dirParts...)` for slash-free segments (the segments come
from splitting a path on `/`): empty segments are dropped and the rest are
joined with `/`. -/
def joinParts (parts : List String) : String :=
  String.mk (joinSlash ((parts.map String.data).filter (fun l => !l.isEmpty)))

/-- The ancestor path computed at loop index `i` of `CreateEntry`
(filer.go:56): `"/" + filepath.Join(dirParts[:i]...)`. -/
def dirPathAt (dirParts : List String) (i : Nat) : String :=
  "/" ++ joinParts (dirParts.take i)

/-- The whole mutable world of a `Filer` plus the observable effect traces:
the Entry Store contents (`store`), the directory cache (`cache`, each item
carrying the TTL minutes it was set with), the sequence of
`FilerStore.InsertEntry` calls made (`inserts`), and the `FileId`s dispatched
to `DeleteFileByFileId` (`reclaimed`). -/
structure FilerState where
  store : List Entry
  cache : List (String × Entry × Nat)
  inserts : List Entry
  reclaimed : List String
  deriving Repr, DecidableEq

/-- Modelled from the spec: the Entry Store capability
`FindEntry(path) -> (entry, error)` over a path-keyed backend — the entry
whose full path equals `p`, absent when no such entry exists. -/
def storeFindEntry (s : List Entry) (p : String) : Option Entry :=
  s.find? (fun e => e.fullPath == p)

/-- Modelled from the spec: the Entry Store capability `InsertEntry(entry)`;
the backends store one entry per path, so an insert at an occupied path
replaces the previous entry.  The call is also appended to the `inserts`
trace. -/
def storeInsertEntry (st : FilerState) (e : Entry) : FilerState :=
  { st with
    store := e :: st.store.filter (fun x => x.fullPath != e.fullPath),
    inserts := st.inserts ++ [e] }

/-- Modelled from the spec: the Entry Store capability `DeleteEntry(path)`,
which may fail with a backend failure; failures are injected through the
`failDel` configuration (paths whose deletion the backend refuses). -/
def storeDeleteEntry (failDel : List String) (st : FilerState) (p : String) :
    FilerState × Except String Unit :=
  if failDel.contains p then (st, Except.error ("delete " ++ p ++ ": backend failure"))
  else ({ st with store := st.store.filter (fun e => e.fullPath != p) }, Except.ok ())

/-- Total order used by the store listing: lexicographic on code points. -/
def charListLt : List Char → List Char → Bool
  | [], [] => false
  | [], _ :: _ => true
  | _ :: _, [] => false
  | a :: as, b :: bs =>
    if a.toNat = b.toNat then charListLt as bs else Nat.blt a.toNat b.toNat

/-- Non-strict companion of `charListLt`. -/
def charListLe (x y : List Char) : Bool := charListLt x y || x == y

/-- The leading characters an immediate child path of directory `p` starts
with: `p ++ "/"`, or `p` itself when `p` is the root. -/
def childDirPre (p : String) : List Char :=
  if p = "/" then p.data else p.data ++ ['/']

/-- The name of `q` as an immediate child of directory `p`: the remainder of
`q` after `childDirPre p`, provided that remainder is a non-empty slash-free
segment. -/
def childNameOf (p q : String) : Option (List Char) :=
  if q.data.take (childDirPre p).length = childDirPre p then
    if q.data.drop (childDirPre p).length ≠ [] ∧
        (q.data.drop (childDirPre p).length).contains '/' = false
    then some (q.data.drop (childDirPre p).length) else none
  else none

/-- Start-name filter of the store listing: names at or after
`startFileName`, inclusive or exclusive per the flag. -/
def startOk (name : List Char) (startFileName : String) (inclusive : Bool) : Bool :=
  if inclusive then charListLe startFileName.data name
  else charListLt startFileName.data name

/-- Listing predicate: `e` is an immediate child of `p` whose name passes the
start-name filter. -/
def listPred (p startFileName : String) (inclusive : Bool) (e : Entry) : Bool :=
  match childNameOf p e.fullPath with
  | some n => startOk n startFileName inclusive
  | none => false

/-- Insertion step of the path-sorted listing order. -/
def insertByPath (e : Entry) : List Entry → List Entry
  | [] => [e]
  | x :: xs =>
    if charListLe e.fullPath.data x.fullPath.data then e :: x :: xs
    else x :: insertByPath e xs

/-- Insertion sort by full path. -/
def sortByPath : List Entry → List Entry
  | [] => []
  | x :: xs => insertByPath x (sortByPath xs)

/-- Modelled from the spec: the Entry Store capability
`ListDirectoryEntries(path, startFileName, inclusive, limit)` — the immediate
children of `p` in path-sorted order, starting at `startFileName`
(inclusive or exclusive per flag), bounded by `limit`. -/
def storeListDirectoryEntries (s : List Entry) (p startFileName : String)
    (inclusive : Bool) (limit : Nat) : List Entry :=
  (sortByPath (s.filter (listPred p startFileName inclusive))).take limit

/-- The trailing-slash normalization of `Filer.ListDirectoryEntries`
(filer.go:168-170): `strings.HasSuffix(string(p), "/") && len(p) > 1` strips
the final byte.  For the one-byte pattern `"/"`, `HasSuffix` holds exactly
when the last character is `'/'`, and slicing off the final byte then drops
that character; `len(p) > 1` (bytes) is equivalent to more than one
character when the last character is the one-byte `'/'`. -/
def normalizePath (p : String) : String :=
  if p.data.getLast? = some '/' ∧ 1 < p.data.length then String.mk p.data.dropLast else p

/-- Shallow embedding of `Filer.ListDirectoryEntries` (filer.go:167-172):
normalize the trailing slash, then delegate to the Entry Store. -/
def ListDirectoryEntries (st : FilerState) (p startFileName : String)
    (inclusive : Bool) (limit : Nat) : List Entry :=
  storeListDirectoryEntries st.store (normalizePath p) startFileName inclusive limit

/-- Shallow embedding of `Filer.FindEntry` (filer.go:133-135): a direct
passthrough to the Entry Store. -/
def FindEntry (st : FilerState) (p : String) : Option Entry :=
  storeFindEntry st.store p

/-- Shallow embedding of `Filer.cacheGetDirectory` (filer.go:182-191). -/
def cacheGetDirectory (st : FilerState) (dirpath : String) : Option Entry :=
  (st.cache.find? (fun c => c.1 == dirpath)).map (fun c => c.2.1)

/-- Shallow embedding of `Filer.cacheSetDirectory` (filer.go:193-205): cache
the directory entry under its path with the depth-derived TTL (ccache `Set`
replaces any previous item under the same key). -/
def cacheSetDirectory (st : FilerState) (dirpath : String) (dirEntry : Entry)
    (level : Nat) : FilerState :=
  { st with cache := (dirpath, dirEntry, ttlMinutes level) :: st.cache.filter (fun c => c.1 != dirpath) }

/-- Shallow embedding of `Filer.cacheDelDirectory` (filer.go:174-180). -/
def cacheDelDirectory (st : FilerState) (dirpath : String) : FilerState :=
  { st with cache := st.cache.filter (fun c => c.1 != dirpath) }

/-- The directory lookup of the `CreateEntry` walk (filer.go:60-68): first
the directory cache, then the Entry Store on a cache miss (the lookup error
of `FindEntry` is ignored). -/
def lookupDirectory (st : FilerState) (dirPath : String) : Option Entry :=
  match cacheGetDirectory st dirPath with
  | some e => some e
  | none => FindEntry st dirPath

/-- `true` when the lookup at `p` does not hit a non-directory entry. -/
def dirLookupOk (st : FilerState) (p : String) : Bool :=
  match lookupDirectory st p with
  | none => true
  | some e => e.isDirectory

/-- The directory entry auto-created at `dirPath` by `CreateEntry`
(filer.go:74-85): current time as both mtime and crtime, mode
`os.ModeDir | 0770`, uid/gid copied from the entry being created, no
chunks. -/
def mkDirEntry (now : Nat) (dirPath : String) (entry : Entry) : Entry :=
  { fullPath := dirPath,
    attr := { mtime := now, crtime := now, mode := modeDir.lor 0o770,
              uid := entry.attr.uid, gid := entry.attr.gid },
    chunks := [] }

/-- Record dispatched chunk deletions in the `reclaimed` trace. -/
def reclaimChunks (st : FilerState) (fileIds : List String) : FilerState :=
  { st with reclaimed := st.reclaimed ++ fileIds }

/-- The ancestor walk of `CreateEntry` (filer.go:55-104), one loop index at a
time: look the directory up (cache first, store second); auto-create and
insert it when absent; abort with `"X is a file"` when it exists as a
non-directory; cache the surviving directory entry with the depth-derived
TTL; remember the entry of the last index as the parent.  The third result
component is the abort message, if any.  (The store-insert failure branch of
the Go code is not reachable in the modelled backend.) -/
def createAncestors (now : Nat) (entry : Entry) (dirParts : List String) :
    List Nat → FilerState → Option Entry → FilerState × Option Entry × Option String
  | [], st, lastDirectoryEntry => (st, lastDirectoryEntry, none)
  | i :: rest, st, lastDirectoryEntry =>
    let dirPath := dirPathAt dirParts i
    match lookupDirectory st dirPath with
    | none =>
      let dirEntry := mkDirEntry now dirPath entry
      let st1 := cacheSetDirectory (storeInsertEntry st dirEntry) dirPath dirEntry i
      createAncestors now entry dirParts rest st1
        (if i = dirParts.length - 1 then some dirEntry else lastDirectoryEntry)
    | some dirEntry =>
      if dirEntry.isDirectory then
        let st1 := cacheSetDirectory st dirPath dirEntry i
        createAncestors now entry dirParts rest st1
          (if i = dirParts.length - 1 then some dirEntry else lastDirectoryEntry)
      else (st, lastDirectoryEntry, some (dirPath ++ " is a file"))

/-- Shallow embedding of `Filer.CreateEntry` (filer.go:47-127): walk the
ancestor prefixes (`for i := 1; i < len(dirParts); i++`), then require a
resolved parent, look up any previous entry at the target path (errors
ignored), insert the new entry, and reconcile chunks between the old and new
entry.  `now` stands for `time.Now()`. -/
def CreateEntry (now : Nat) (st : FilerState) (entry : Entry) :
    FilerState × Except String Unit :=
  let dirParts := splitPath entry.fullPath
  match createAncestors now entry dirParts ((List.range dirParts.length).drop 1) st none with
  | (st1, _, some msg) => (st1, Except.error msg)
  | (st1, none, none) =>
    (st1, Except.error ("parent folder not found: " ++ entry.fullPath))
  | (st1, some _, none) =>
    let oldEntry := FindEntry st1 entry.fullPath
    let st2 := storeInsertEntry st1 entry
    let st3 := reclaimChunks st2 (deleteChunksIfNotNew oldEntry (some entry)).1
    (st3, Except.ok ())

/-- Chunk reclamation plus store deletion: the tail of
`DeleteEntryMetaAndData` (filer.go:160-164). -/
def deleteFinish (failDel : List String) (st : FilerState) (p : String)
    (entry : Entry) (shouldDeleteChunks : Bool) : FilerState × Except String Unit :=
  let st1 := if shouldDeleteChunks then reclaimChunks st (deleteChunks entry.chunks) else st
  storeDeleteEntry failDel st1 p

/-- Shallow embedding of `Filer.DeleteEntryMetaAndData` (filer.go:137-165).
`fuel` bounds the recursion depth (the Go recursion is finite on finite
stores; every claim supplies ample fuel).  For a directory, the immediate
children are listed with limit 1; in recursive mode each listed child is
deleted recursively with its result discarded (the Go code ignores the
returned error), otherwise a non-empty listing aborts with the
"is not empty" error before any mutation; the cache entry is invalidated,
the entry's own chunks reclaimed when requested, and the entry removed from
the store. -/
def DeleteEntryMetaAndData (failDel : List String) :
    Nat → FilerState → String → Bool → Bool → FilerState × Except String Unit
  | 0, st, _, _, _ => (st, Except.error "recursion limit reached")
  | Nat.succ fuel, st, p, isRecursive, shouldDeleteChunks =>
    match storeFindEntry st.store p with
    | none => (st, Except.error ("find " ++ p ++ ": not found"))
    | some entry =>
      if entry.isDirectory then
        let entries := ListDirectoryEntries st p "" false 1
        if isRecursive then
          let st1 := entries.foldl
            (fun s sub =>
              (DeleteEntryMetaAndData failDel fuel s sub.fullPath isRecursive shouldDeleteChunks).1)
            st
          deleteFinish failDel (cacheDelDirectory st1 p) p entry shouldDeleteChunks
        else
          if 0 < entries.length then
            (st, Except.error ("folder " ++ p ++ " is not empty"))
          else deleteFinish failDel (cacheDelDirectory st p) p entry shouldDeleteChunks
      else deleteFinish failDel st p entry shouldDeleteChunks

/-- A concrete file-entry attribute value used by the concrete test states
below (mode `0660`: the directory bit is clear). -/
def attrFile : Attr := { mtime := 7, crtime := 7, mode := 0o660, uid := 1000, gid := 1000 }

/-- A concrete directory-entry attribute value (mode `os.ModeDir | 0770`). -/
def attrDir : Attr := { mtime := 7, crtime := 7, mode := modeDir.lor 0o770, uid := 1000, gid := 1000 }

/-- Concrete old entry for the chunk-diff example: chunk list `{1,2,3}`. -/
def oldEntryC3 : Entry := { fullPath := "/f", attr := attrFile, chunks := [⟨"1"⟩, ⟨"2"⟩, ⟨"3"⟩] }

/-- Concrete new entry for the chunk-diff example: chunk list `{2,3,4}`. -/
def newEntryC3 : Entry := { fullPath := "/f", attr := attrFile, chunks := [⟨"2"⟩, ⟨"3"⟩, ⟨"4"⟩] }

/-- Concrete old entry with one chunk, for the pure-delete fault case. -/
def oldEntryC2 : Entry := { fullPath := "/f", attr := attrFile, chunks := [⟨"1,ab"⟩] }

/-- Concrete directory entry at `/d`. -/
def dirD : Entry := { fullPath := "/d", attr := attrDir, chunks := [] }

/-- Concrete file entry at `/d/x` with one chunk. -/
def fileX : Entry := { fullPath := "/d/x", attr := attrFile, chunks := [⟨"3,x1"⟩] }

/-- Concrete file entry at `/d/y` with one chunk. -/
def fileY : Entry := { fullPath := "/d/y", attr := attrFile, chunks := [⟨"4,y1"⟩] }

/-- Concrete state: directory `/d` with two children `/d/x` and `/d/y`. -/
def stC1 : FilerState := { store := [dirD, fileX, fileY], cache := [], inserts := [], reclaimed := [] }

/-- Concrete state: directory `/d` with one child `/d/x`. -/
def stDX : FilerState := { store := [dirD, fileX], cache := [], inserts := [], reclaimed := [] }

/-- Concrete file entry occupying the path `/a`. -/
def fileA : Entry := { fullPath := "/a", attr := attrFile, chunks := [] }

/-- Concrete state whose only entry is the file `/a`. -/
def stC5 : FilerState := { store := [fileA], cache := [], inserts := [], reclaimed := [] }

/-- Concrete entry to be created at `/a/b` (under the file `/a`). -/
def entryC5 : Entry := { fullPath := "/a/b", attr := attrFile, chunks := [⟨"5,c"⟩] }

/-- Concrete empty state. -/
def stEmpty : FilerState := { store := [], cache := [], inserts := [], reclaimed := [] }

/-- Concrete entry to be created at `/a/b/c` with no existing ancestors. -/
def entryC6 : Entry := { fullPath := "/a/b/c", attr := attrFile, chunks := [⟨"6,z"⟩] }

/-! ## Helper lemmas -/

@[simp] theorem storeInsertEntry_cache (st : FilerState) (e : Entry) :
    (storeInsertEntry st e).cache = st.cache := rfl

@[simp] theorem cacheSetDirectory_store (st : FilerState) (d : String) (e : Entry) (l : Nat) :
    (cacheSetDirectory st d e l).store = st.store := rfl

@[simp] theorem cacheSetDirectory_inserts (st : FilerState) (d : String) (e : Entry) (l : Nat) :
    (cacheSetDirectory st d e l).inserts = st.inserts := rfl

@[simp] theorem storeInsertEntry_inserts (st : FilerState) (e : Entry) :
    (storeInsertEntry st e).inserts = st.inserts ++ [e] := rfl

@[simp] theorem reclaimChunks_cache (st : FilerState) (ids : List String) :
    (reclaimChunks st ids).cache = st.cache := rfl

@[simp] theorem reclaimChunks_store (st : FilerState) (ids : List String) :
    (reclaimChunks st ids).store = st.store := rfl

@[simp] theorem reclaimChunks_inserts (st : FilerState) (ids : List String) :
    (reclaimChunks st ids).inserts = st.inserts := rfl

@[simp] theorem cacheDelDirectory_store (st : FilerState) (d : String) :
    (cacheDelDirectory st d).store = st.store := rfl

@[simp] theorem cacheDelDirectory_cache (st : FilerState) (d : String) :
    (cacheDelDirectory st d).cache = st.cache.filter (fun c => c.1 != d) := rfl

@[simp] theorem mkDirEntry_fullPath (now : Nat) (d : String) (entry : Entry) :
    (mkDirEntry now d entry).fullPath = d := rfl

theorem mkDirEntry_isDirectory (now : Nat) (d : String) (entry : Entry) :
    (mkDirEntry now d entry).isDirectory = true := by
  simp only [Entry.isDirectory, mkDirEntry]
  decide

/-- `find?` commutes with a `filter` that keeps every element the `find?`
predicate accepts. -/
theorem find?_filter_of_imp {α : Type} (p f : α → Bool)
    (h : ∀ x, p x = true → f x = true) (l : List α) :
    (l.filter f).find? p = l.find? p := by
  induction l with
  | nil => rfl
  | cons a l ih =>
    cases hf : f a with
    | true =>
      cases hp : p a with
      | true => simp [List.filter_cons, hf, List.find?_cons, hp]
      | false => simp [List.filter_cons, hf, List.find?_cons, hp, ih]
    | false =>
      have hp : p a = false := by
        cases hpa : p a
        · rfl
        · exact absurd (h a hpa) (by simp [hf])
      simp [List.filter_cons, hf, List.find?_cons, hp, ih]

/-- `find?` by a key returns nothing on a list filtered to exclude that key. -/
theorem find?_filter_key_none {α : Type} (key : α → String) (p : String) (l : List α) :
    (l.filter (fun e => key e != p)).find? (fun e => key e == p) = none := by
  apply List.find?_eq_none.mpr
  intro x hx
  have h2 := (List.mem_filter.mp hx).2
  simp only [bne_iff_ne, ne_eq] at h2
  simp [h2]

theorem storeFindEntry_insert_ne (st : FilerState) (e : Entry) (q : String)
    (h : q ≠ e.fullPath) :
    storeFindEntry (storeInsertEntry st e).store q = storeFindEntry st.store q := by
  unfold storeFindEntry storeInsertEntry
  rw [List.find?_cons_of_neg _ (by simp only [beq_iff_eq]; exact Ne.symm h)]
  exact find?_filter_of_imp _ _
    (fun x hx => by
      have hxq : x.fullPath = q := by simpa using hx
      simp only [hxq, bne_iff_ne, ne_eq]
      exact h) _

theorem cacheGetDirectory_set_self (st : FilerState) (d : String) (e : Entry) (l : Nat) :
    cacheGetDirectory (cacheSetDirectory st d e l) d = some e := by
  unfold cacheGetDirectory cacheSetDirectory
  rw [List.find?_cons_of_pos _ (by simp)]
  rfl

theorem cacheGetDirectory_set_ne (st : FilerState) (d : String) (e : Entry) (l : Nat)
    (q : String) (h : q ≠ d) :
    cacheGetDirectory (cacheSetDirectory st d e l) q = cacheGetDirectory st q := by
  unfold cacheGetDirectory cacheSetDirectory
  rw [List.find?_cons_of_neg _ (by simp only [beq_iff_eq]; exact Ne.symm h)]
  rw [find?_filter_of_imp _ _
    (fun x hx => by
      have hxq : x.1 = q := by simpa using hx
      simp only [hxq, bne_iff_ne, ne_eq]
      exact h) _]

theorem lookupDirectory_set_self (st : FilerState) (d : String) (e : Entry) (l : Nat) :
    lookupDirectory (cacheSetDirectory st d e l) d = some e := by
  unfold lookupDirectory
  rw [cacheGetDirectory_set_self]

theorem lookupDirectory_set_ne (st : FilerState) (d : String) (e : Entry) (l : Nat)
    (q : String) (h : q ≠ d) :
    lookupDirectory (cacheSetDirectory st d e l) q = lookupDirectory st q := by
  unfold lookupDirectory
  rw [cacheGetDirectory_set_ne st d e l q h]
  unfold FindEntry
  rw [cacheSetDirectory_store]

theorem lookupDirectory_insert_ne (st : FilerState) (e : Entry) (q : String)
    (h : q ≠ e.fullPath) :
    lookupDirectory (storeInsertEntry st e) q = lookupDirectory st q := by
  unfold lookupDirectory
  rw [show cacheGetDirectory (storeInsertEntry st e) q = cacheGetDirectory st q from rfl]
  unfold FindEntry
  rw [show (storeInsertEntry st e).store = e :: st.store.filter (fun x => x.fullPath != e.fullPath) from rfl]
  cases hc : cacheGetDirectory st q with
  | some _ => rfl
  | none =>
    have := storeFindEntry_insert_ne st e q h
    unfold storeFindEntry storeInsertEntry at this
    exact this

/-! ## Claim theorems -/

/-- C2: the claim states that `deleteChunksIfNotNew(oldEntry, nil)` reclaims
every chunk of `oldEntry` and completes without fault for every non-nil
`oldEntry`.  The code dispatches all the deletions but then falls through
(the branch is missing a `return`) and dereferences the nil `newEntry`:
on the concrete one-chunk entry the call faults. -/
theorem deleteChunksIfNotNew_pure_delete_fault :
    deleteChunksIfNotNew (some oldEntryC2) none = (["1,ab"], true) := by decide

/-- C3: for non-nil old and new entries, `deleteChunksIfNotNew` dispatches no
fault and reclaims exactly the chunks whose `FileId` occurs in the old chunk
list but not in the new one (identifier-set difference, independent of
position); in particular replacing `{1,2,3}` by `{2,3,4}` reclaims exactly
chunk `1`. -/
theorem deleteChunksIfNotNew_set_difference :
    (∀ old new : Entry,
      (deleteChunksIfNotNew (some old) (some new)).2 = false ∧
      ∀ fid : String,
        fid ∈ (deleteChunksIfNotNew (some old) (some new)).1 ↔
          (fid ∈ old.chunks.map (fun c => c.fileId) ∧
           fid ∉ new.chunks.map (fun c => c.fileId))) ∧
    (deleteChunksIfNotNew (some oldEntryC3) (some newEntryC3)).1 = ["1"] := by
  refine ⟨fun old new => ⟨rfl, fun fid => ?_⟩, by decide⟩
  have hdef : (deleteChunksIfNotNew (some old) (some new)).1
      = (old.chunks.filter
          (fun oldChunk => !(new.chunks.any (fun newChunk => newChunk.fileId == oldChunk.fileId)))).map
        (fun c => c.fileId) := rfl
  rw [hdef]
  constructor
  · intro hmem
    obtain ⟨c, hcf, hfid⟩ := List.mem_map.mp hmem
    obtain ⟨hc, hpred⟩ := List.mem_filter.mp hcf
    subst hfid
    refine ⟨List.mem_map.mpr ⟨c, hc, rfl⟩, ?_⟩
    intro hnew
    obtain ⟨c2, hc2, he⟩ := List.mem_map.mp hnew
    have hany : new.chunks.any (fun newChunk => newChunk.fileId == c.fileId) = true :=
      List.any_eq_true.mpr ⟨c2, hc2, by simp [he]⟩
    rw [hany] at hpred
    exact absurd hpred (by decide)
  · rintro ⟨hold, hnew⟩
    obtain ⟨c, hc, hfid⟩ := List.mem_map.mp hold
    subst hfid
    refine List.mem_map.mpr ⟨c, List.mem_filter.mpr ⟨hc, ?_⟩, rfl⟩
    cases hany : new.chunks.any (fun newChunk => newChunk.fileId == c.fileId) with
    | false => rfl
    | true =>
      obtain ⟨c2, hc2, he⟩ := List.any_eq_true.mp hany
      exact absurd (List.mem_map.mpr ⟨c2, hc2, by simpa using he⟩) hnew

/-- C1: the claim states that a recursive delete of a directory removes every
descendant before the directory itself.  The code lists the children with
limit 1 (filer.go:144), so on a directory `/d` with children `/d/x` and
`/d/y` only `/d/x` is recursively deleted (and only its chunk reclaimed);
`/d` itself is then removed and the call reports success while the
descendant `/d/y` is still in the Entry Store, orphaned. -/
theorem DeleteEntryMetaAndData_recursive_limit_one :
    (DeleteEntryMetaAndData [] 3 stC1 "/d" true true).2 = Except.ok () ∧
    (DeleteEntryMetaAndData [] 3 stC1 "/d" true true).1.store = [fileY] ∧
    (DeleteEntryMetaAndData [] 3 stC1 "/d" true true).1.reclaimed = ["3,x1"] :=
  ⟨rfl, by decide, by decide⟩

/-- C7: the TTL recorded when caching a directory entry at ancestor depth
`level ≥ 1` is `60 − 6·level` minutes for `level < 10` and 60 minutes
otherwise; in particular 54 at depth 1, 6 at depth 9, 60 at depth 10 and
beyond. -/
theorem cacheSetDirectory_ttl_policy (st : FilerState) (p : String) (e : Entry)
    (level : Nat) (h : 1 ≤ level) :
    (cacheSetDirectory st p e level).cache.find? (fun c => c.1 == p)
        = some (p, e, ttlMinutes level) ∧
    ttlMinutes level = (if level < 10 then 60 - 6 * level else 60) ∧
    ttlMinutes 1 = 54 ∧ ttlMinutes 9 = 6 ∧ ttlMinutes 10 = 60 ∧ ttlMinutes 11 = 60 := by
  refine ⟨?_, ?_, rfl, rfl, rfl, rfl⟩
  · unfold cacheSetDirectory
    exact List.find?_cons_of_pos _ (by simp)
  · unfold ttlMinutes
    rw [Nat.mul_comm]

/-- Witness for C7 at depth 1. -/
theorem cacheSetDirectory_ttl_policy_witness :
    1 ≤ 1 ∧
    ((cacheSetDirectory stEmpty "/w" fileX 1).cache.find? (fun c => c.1 == "/w")
        = some ("/w", fileX, ttlMinutes 1) ∧
     ttlMinutes 1 = (if 1 < 10 then 60 - 6 * 1 else 60) ∧
     ttlMinutes 1 = 54 ∧ ttlMinutes 9 = 6 ∧ ttlMinutes 10 = 60 ∧ ttlMinutes 11 = 60) :=
  ⟨Nat.le_refl 1, cacheSetDirectory_ttl_policy stEmpty "/w" fileX 1 (Nat.le_refl 1)⟩

/-- C9: when the chunk-location lookup fails, `DeleteFileByFileId` still
invokes the volume-server deletion, with the zero-value location returned by
the failed lookup (it does not skip the delete call). -/
theorem DeleteFileByFileId_failed_lookup_still_deletes
    (lookupFileId : String → Except String String) (fileId msg : String)
    (h : lookupFileId fileId = Except.error msg) :
    DeleteFileByFileId lookupFileId fileId = [("", "")] := by
  unfold DeleteFileByFileId
  rw [h]

/-- Witness for C9: a locator that fails on every chunk identifier. -/
theorem DeleteFileByFileId_failed_lookup_still_deletes_witness :
    (fun _ : String => (Except.error "not found" : Except String String)) "1,ab"
        = Except.error "not found" ∧
    DeleteFileByFileId (fun _ : String => (Except.error "not found" : Except String String)) "1,ab"
        = [("", "")] :=
  ⟨rfl, DeleteFileByFileId_failed_lookup_still_deletes _ "1,ab" "not found" rfl⟩

/-- C8: for a non-root path with a single trailing slash, listing a directory
is the same as listing the path with the slash stripped; the root path `/`
is passed to the Entry Store unchanged. -/
theorem ListDirectoryEntries_trailing_slash (st : FilerState)
    (q startFileName : String) (inclusive : Bool) (limit : Nat)
    (hq : q ≠ "") (hslash : q.data.getLast? ≠ some '/') :
    ListDirectoryEntries st (q ++ "/") startFileName inclusive limit
        = ListDirectoryEntries st q startFileName inclusive limit ∧
    ListDirectoryEntries st "/" startFileName inclusive limit
        = storeListDirectoryEntries st.store "/" startFileName inclusive limit := by
  have hdata : (q ++ "/").data = q.data ++ ['/'] := String.data_append q "/"
  have hne : q.data ≠ [] := fun hd => hq (String.ext hd)
  have hnorm1 : normalizePath q = q := by
    unfold normalizePath
    rw [if_neg]
    rintro ⟨h1, _⟩
    exact hslash h1
  have hlen : 0 < q.data.length := List.length_pos.mpr hne
  have hnorm2 : normalizePath (q ++ "/") = q := by
    unfold normalizePath
    rw [if_pos ⟨by rw [hdata]; exact List.getLast?_concat q.data, by
      rw [hdata, List.length_append, List.length_singleton]
      omega⟩]
    rw [hdata, List.dropLast_concat]
  constructor
  · unfold ListDirectoryEntries
    rw [hnorm1, hnorm2]
  · unfold ListDirectoryEntries
    rw [show normalizePath "/" = "/" from rfl]

/-- Witness for C8 on the concrete path `/a/b`. -/
theorem ListDirectoryEntries_trailing_slash_witness :
    ("/a/b" : String) ≠ "" ∧ ("/a/b" : String).data.getLast? ≠ some '/' ∧
    (ListDirectoryEntries stC1 ("/a/b" ++ "/") "" false 10
        = ListDirectoryEntries stC1 "/a/b" "" false 10 ∧
     ListDirectoryEntries stC1 "/" "" false 10
        = storeListDirectoryEntries stC1.store "/" "" false 10) :=
  ⟨by decide, by decide,
   ListDirectoryEntries_trailing_slash stC1 "/a/b" "" false 10 (by decide) (by decide)⟩

theorem insertByPath_length (e : Entry) (l : List Entry) :
    (insertByPath e l).length = l.length + 1 := by
  induction l with
  | nil => rfl
  | cons x xs ih =>
    cases h : charListLe e.fullPath.data x.fullPath.data <;>
      simp [insertByPath, h, ih]

theorem sortByPath_length (l : List Entry) : (sortByPath l).length = l.length := by
  induction l with
  | nil => rfl
  | cons x xs ih =>
    unfold sortByPath
    rw [insertByPath_length, ih]
    rfl

theorem childNameOf_ne_nil (p q : String) (n : List Char)
    (h : childNameOf p q = some n) : n ≠ [] := by
  unfold childNameOf at h
  split_ifs at h with h1 h2
  injection h with h3
  rw [← h3]
  exact h2.1

theorem charListLt_nil (n : List Char) (h : n ≠ []) : charListLt [] n = true := by
  cases n with
  | nil => exact absurd rfl h
  | cons c cs => rfl

/-- A store that contains an immediate child of `p` lists at least one entry
for `p` with the `("", exclusive, limit 1)` arguments used by the delete
path. -/
theorem storeList_children_ne_nil (s : List Entry) (p : String) (c : Entry)
    (hc : c ∈ s) (hn : (childNameOf p c.fullPath).isSome = true) :
    storeListDirectoryEntries s p "" false 1 ≠ [] := by
  obtain ⟨n, hn'⟩ := Option.isSome_iff_exists.mp hn
  have hpred : listPred p "" false c = true := by
    unfold listPred
    rw [hn']
    show charListLt [] n = true
    exact charListLt_nil n (childNameOf_ne_nil p c.fullPath n hn')
  have hmem : c ∈ s.filter (listPred p "" false) := List.mem_filter.mpr ⟨hc, hpred⟩
  have hlen : 0 < (s.filter (listPred p "" false)).length :=
    List.length_pos.mpr (List.ne_nil_of_mem hmem)
  intro hcon
  have hl0 : (storeListDirectoryEntries s p "" false 1).length = 0 := by rw [hcon]; rfl
  unfold storeListDirectoryEntries at hl0
  rw [List.length_take, sortByPath_length] at hl0
  omega

/-- C4: a non-recursive delete of a directory that has at least one child
aborts with the "is not empty" error and performs no mutation at all: the
final state is the initial state (no entry removed, no chunk-deletion
dispatched, cache untouched). -/
theorem DeleteEntryMetaAndData_not_empty_guard (failDel : List String) (fuel : Nat)
    (st : FilerState) (p : String) (entry : Entry) (shouldDeleteChunks : Bool)
    (hfind : storeFindEntry st.store p = some entry)
    (hdir : entry.isDirectory = true)
    (hnorm : normalizePath p = p)
    (hchild : ∃ c, c ∈ st.store ∧ (childNameOf p c.fullPath).isSome = true) :
    DeleteEntryMetaAndData failDel (Nat.succ fuel) st p false shouldDeleteChunks
        = (st, Except.error ("folder " ++ p ++ " is not empty")) := by
  obtain ⟨c, hc, hn⟩ := hchild
  have hne := storeList_children_ne_nil st.store p c hc hn
  have hlen : 0 < (ListDirectoryEntries st p "" false 1).length := by
    unfold ListDirectoryEntries
    rw [hnorm]
    exact List.length_pos.mpr hne
  unfold DeleteEntryMetaAndData
  simp only [hfind, hdir, if_true, Bool.false_eq_true, if_false]
  rw [if_pos hlen]

/-- Witness for C4: directory `/d` with child `/d/x`. -/
theorem DeleteEntryMetaAndData_not_empty_guard_witness :
    storeFindEntry stDX.store "/d" = some dirD ∧ dirD.isDirectory = true ∧
    normalizePath "/d" = "/d" ∧
    DeleteEntryMetaAndData [] (Nat.succ 2) stDX "/d" false true
        = (stDX, Except.error ("folder " ++ "/d" ++ " is not empty")) :=
  ⟨by decide, by decide, by decide,
   DeleteEntryMetaAndData_not_empty_guard [] 2 stDX "/d" dirD true
     (by decide) (by decide) (by decide) ⟨fileX, by decide, by decide⟩⟩

/-- C10: in a recursive directory delete, the outcome of the child deletions
is discarded (the Go code ignores the recursive call's return value): for
any state (so for arbitrarily failing child deletions) the parent still
invalidates the directory's cache entry, deletes the directory itself, and
returns the directory's own deletion result — success here, since the
backend accepts the delete of `p`; no child error is ever propagated. -/
theorem DeleteEntryMetaAndData_discards_child_errors (failDel : List String)
    (fuel : Nat) (st : FilerState) (p : String) (entry : Entry)
    (shouldDeleteChunks : Bool)
    (hfind : storeFindEntry st.store p = some entry)
    (hdir : entry.isDirectory = true)
    (hok : failDel.contains p = false) :
    (DeleteEntryMetaAndData failDel (Nat.succ fuel) st p true shouldDeleteChunks).2
        = Except.ok () ∧
    storeFindEntry
        (DeleteEntryMetaAndData failDel (Nat.succ fuel) st p true shouldDeleteChunks).1.store p
        = none ∧
    cacheGetDirectory
        (DeleteEntryMetaAndData failDel (Nat.succ fuel) st p true shouldDeleteChunks).1 p
        = none := by
  unfold DeleteEntryMetaAndData
  simp only [hfind, hdir, if_true]
  unfold deleteFinish storeDeleteEntry
  simp only [hok, Bool.false_eq_true, if_false]
  refine ⟨trivial, ?_, ?_⟩
  · unfold storeFindEntry
    exact find?_filter_key_none (fun e : Entry => e.fullPath) p _
  · cases shouldDeleteChunks with
    | false =>
      simp only [Bool.false_eq_true, if_false]
      unfold cacheGetDirectory
      simp only [reclaimChunks_cache, cacheDelDirectory_cache]
      rw [find?_filter_key_none (fun c : String × Entry × Nat => c.1) p]
      rfl
    | true =>
      simp only [if_true]
      unfold cacheGetDirectory
      simp only [reclaimChunks_cache, cacheDelDirectory_cache]
      rw [find?_filter_key_none (fun c : String × Entry × Nat => c.1) p]
      rfl

/-- Witness for C10: the backend refuses to delete the child `/d/x`, so the
child's recursive deletion fails (the child is still present afterwards),
yet the parent delete of `/d` succeeds and the directory is gone. -/
theorem DeleteEntryMetaAndData_discards_child_errors_witness :
    storeFindEntry stDX.store "/d" = some dirD ∧ dirD.isDirectory = true ∧
    (["/d/x"] : List String).contains "/d" = false ∧
    ((DeleteEntryMetaAndData ["/d/x"] (Nat.succ 2) stDX "/d" true true).2 = Except.ok () ∧
     storeFindEntry
         (DeleteEntryMetaAndData ["/d/x"] (Nat.succ 2) stDX "/d" true true).1.store "/d"
         = none ∧
     cacheGetDirectory
         (DeleteEntryMetaAndData ["/d/x"] (Nat.succ 2) stDX "/d" true true).1 "/d"
         = none) ∧
    (DeleteEntryMetaAndData ["/d/x"] (Nat.succ 2) stDX "/d" true true).1.store = [fileX] :=
  ⟨by decide, by decide, by decide,
   DeleteEntryMetaAndData_discards_child_errors ["/d/x"] 2 stDX "/d" dirD true
     (by decide) (by decide) (by decide),
   by decide⟩

/-- If every ancestor index in `pre` looks up as "absent or a directory"
while the index `istar` looks up as an existing non-directory, the ancestor
walk aborts with the `"X is a file"` conflict at `istar`, and the Entry
Store content at any path `tgt` different from all the `pre` paths is left
unchanged (the walk only inserts auto-created directories at the `pre`
paths). -/
theorem createAncestors_conflict (now : Nat) (entry : Entry) (dirParts : List String)
    (tgt : String) (istar : Nat) (e : Entry) (hfile : e.isDirectory = false) :
    ∀ (pre post : List Nat) (st : FilerState) (last : Option Entry),
    (∀ j ∈ pre, dirLookupOk st (dirPathAt dirParts j) = true) →
    (∀ j ∈ pre, dirPathAt dirParts j ≠ dirPathAt dirParts istar) →
    (∀ j ∈ pre, dirPathAt dirParts j ≠ tgt) →
    lookupDirectory st (dirPathAt dirParts istar) = some e →
    (createAncestors now entry dirParts (pre ++ istar :: post) st last).2.2
        = some (dirPathAt dirParts istar ++ " is a file") ∧
    storeFindEntry (createAncestors now entry dirParts (pre ++ istar :: post) st last).1.store tgt
        = storeFindEntry st.store tgt := by
  intro pre
  induction pre with
  | nil =>
    intro post st last _ _ _ hbad
    rw [List.nil_append]
    simp only [createAncestors, hbad, hfile, Bool.false_eq_true, if_false]
    exact ⟨trivial, trivial⟩
  | cons j pre ih =>
    intro post st last hok hne hnt hbad
    have hjok := hok j (List.mem_cons_self j pre)
    have hjne := hne j (List.mem_cons_self j pre)
    have hjnt := hnt j (List.mem_cons_self j pre)
    rw [List.cons_append]
    cases hl : lookupDirectory st (dirPathAt dirParts j) with
    | none =>
      simp only [createAncestors, hl]
      set d := mkDirEntry now (dirPathAt dirParts j) entry with hd
      set st1 := cacheSetDirectory (storeInsertEntry st d) (dirPathAt dirParts j) d j with hst1
      have hdfull : d.fullPath = dirPathAt dirParts j := by
        rw [hd, mkDirEntry_fullPath]
      have hpres : ∀ q, q ≠ dirPathAt dirParts j →
          lookupDirectory st1 q = lookupDirectory st q := by
        intro q hq
        rw [hst1, lookupDirectory_set_ne _ _ _ _ _ hq,
          lookupDirectory_insert_ne _ _ _ (by rw [hdfull]; exact hq)]
      have hself : lookupDirectory st1 (dirPathAt dirParts j) = some d := by
        rw [hst1]
        exact lookupDirectory_set_self _ _ _ _
      have hok1 : ∀ j' ∈ pre, dirLookupOk st1 (dirPathAt dirParts j') = true := by
        intro j' hj'
        by_cases hq : dirPathAt dirParts j' = dirPathAt dirParts j
        · unfold dirLookupOk
          rw [hq, hself, hd]
          exact mkDirEntry_isDirectory now _ entry
        · unfold dirLookupOk
          rw [hpres _ hq]
          exact hok j' (List.mem_cons_of_mem j hj')
      have hbad1 : lookupDirectory st1 (dirPathAt dirParts istar) = some e := by
        rw [hpres _ (Ne.symm hjne)]
        exact hbad
      have hfind1 : storeFindEntry st1.store tgt = storeFindEntry st.store tgt := by
        rw [hst1, cacheSetDirectory_store]
        exact storeFindEntry_insert_ne st d tgt (by rw [hdfull]; exact Ne.symm hjnt)
      obtain ⟨h1, h2⟩ := ih post st1 (if j = dirParts.length - 1 then some d else last)
        hok1 (fun j' hj' => hne j' (List.mem_cons_of_mem j hj'))
        (fun j' hj' => hnt j' (List.mem_cons_of_mem j hj')) hbad1
      exact ⟨h1, h2.trans hfind1⟩
    | some de =>
      have hdirde : de.isDirectory = true := by
        have hthis := hjok
        unfold dirLookupOk at hthis
        rw [hl] at hthis
        exact hthis
      simp only [createAncestors, hl, hdirde, if_true]
      set st1 := cacheSetDirectory st (dirPathAt dirParts j) de j with hst1
      have hpres : ∀ q, q ≠ dirPathAt dirParts j →
          lookupDirectory st1 q = lookupDirectory st q := by
        intro q hq
        rw [hst1, lookupDirectory_set_ne _ _ _ _ _ hq]
      have hok1 : ∀ j' ∈ pre, dirLookupOk st1 (dirPathAt dirParts j') = true := by
        intro j' hj'
        by_cases hq : dirPathAt dirParts j' = dirPathAt dirParts j
        · unfold dirLookupOk
          rw [hq, hst1, lookupDirectory_set_self]
          exact hdirde
        · unfold dirLookupOk
          rw [hpres _ hq]
          exact hok j' (List.mem_cons_of_mem j hj')
      have hbad1 : lookupDirectory st1 (dirPathAt dirParts istar) = some e := by
        rw [hpres _ (Ne.symm hjne)]
        exact hbad
      have hfind1 : storeFindEntry st1.store tgt = storeFindEntry st.store tgt := by
        rw [hst1, cacheSetDirectory_store]
      obtain ⟨h1, h2⟩ := ih post st1 (if j = dirParts.length - 1 then some de else last)
        hok1 (fun j' hj' => hne j' (List.mem_cons_of_mem j hj'))
        (fun j' hj' => hnt j' (List.mem_cons_of_mem j hj')) hbad1
      exact ⟨h1, h2.trans hfind1⟩

/-- C5: when a walked proper ancestor of the entry's path exists (through the
cache-then-store lookup) as a non-directory — and it is the first such
ancestor on the walk, the earlier ancestors being absent-or-directories at
distinct paths — `CreateEntry` aborts with the `"X is a file"`
structural-conflict error and the Entry Store content at the target path is
unchanged: the target entry is never inserted. -/
theorem CreateEntry_structural_conflict (now : Nat) (st : FilerState) (entry : Entry)
    (pre post : List Nat) (istar : Nat) (e : Entry)
    (hidx : (List.range (splitPath entry.fullPath).length).drop 1 = pre ++ istar :: post)
    (hok : ∀ j ∈ pre, dirLookupOk st (dirPathAt (splitPath entry.fullPath) j) = true)
    (hne : ∀ j ∈ pre,
      dirPathAt (splitPath entry.fullPath) j ≠ dirPathAt (splitPath entry.fullPath) istar)
    (hnt : ∀ j ∈ pre, dirPathAt (splitPath entry.fullPath) j ≠ entry.fullPath)
    (hbad : lookupDirectory st (dirPathAt (splitPath entry.fullPath) istar) = some e)
    (hfile : e.isDirectory = false) :
    (CreateEntry now st entry).2
        = Except.error (dirPathAt (splitPath entry.fullPath) istar ++ " is a file") ∧
    storeFindEntry (CreateEntry now st entry).1.store entry.fullPath
        = storeFindEntry st.store entry.fullPath := by
  have hmain := createAncestors_conflict now entry (splitPath entry.fullPath)
    entry.fullPath istar e hfile pre post st none hok hne hnt hbad
  simp only [CreateEntry]
  rw [hidx]
  rcases hres : createAncestors now entry (splitPath entry.fullPath)
      (pre ++ istar :: post) st none with ⟨st1, last1, err1⟩
  rw [hres] at hmain
  obtain ⟨h1, h2⟩ := hmain
  have h1' : err1 = some (dirPathAt (splitPath entry.fullPath) istar ++ " is a file") := h1
  have h2' : storeFindEntry st1.store entry.fullPath
      = storeFindEntry st.store entry.fullPath := h2
  subst h1'
  cases last1 <;> exact ⟨rfl, h2'⟩

/-- Witness for C5: creating `/a/b` while `/a` exists as a file. -/
theorem CreateEntry_structural_conflict_witness :
    (CreateEntry 11 stC5 entryC5).2
        = Except.error (dirPathAt (splitPath entryC5.fullPath) 2 ++ " is a file") ∧
    storeFindEntry (CreateEntry 11 stC5 entryC5).1.store entryC5.fullPath
        = storeFindEntry stC5.store entryC5.fullPath :=
  CreateEntry_structural_conflict 11 stC5 entryC5 [1] [] 2 fileA
    (by decide) (by decide) (by decide) (by decide) (by decide) (by decide)

/-- One walk step at a non-final index whose lookup misses: auto-create the
directory, insert and cache it, keep `last` unchanged. -/
theorem createAncestors_step_none_mid (now : Nat) (entry : Entry)
    (dirParts : List String) (i : Nat) (rest : List Nat) (st : FilerState)
    (last : Option Entry)
    (h : lookupDirectory st (dirPathAt dirParts i) = none)
    (hi : ¬ i = dirParts.length - 1) :
    createAncestors now entry dirParts (i :: rest) st last
      = createAncestors now entry dirParts rest
          (cacheSetDirectory
            (storeInsertEntry st (mkDirEntry now (dirPathAt dirParts i) entry))
            (dirPathAt dirParts i) (mkDirEntry now (dirPathAt dirParts i) entry) i)
          last := by
  simp only [createAncestors, h, if_neg hi]

/-- One walk step at the final index whose lookup misses: auto-create the
directory and remember it as the resolved parent. -/
theorem createAncestors_step_none_last (now : Nat) (entry : Entry)
    (dirParts : List String) (i : Nat) (rest : List Nat) (st : FilerState)
    (last : Option Entry)
    (h : lookupDirectory st (dirPathAt dirParts i) = none)
    (hi : i = dirParts.length - 1) :
    createAncestors now entry dirParts (i :: rest) st last
      = createAncestors now entry dirParts rest
          (cacheSetDirectory
            (storeInsertEntry st (mkDirEntry now (dirPathAt dirParts i) entry))
            (dirPathAt dirParts i) (mkDirEntry now (dirPathAt dirParts i) entry) i)
          (some (mkDirEntry now (dirPathAt dirParts i) entry)) := by
  simp only [createAncestors, h, if_pos hi]

/-- C6: creating an entry at `/a/b/c` when none of the walked ancestors
(`/`, `/a`, `/a/b`) resolves through the cache or the store inserts the
auto-created directory entries in walk order — root first, then `/a`, then
`/a/b` (each with mode `os.ModeDir | 0770`, mtime = crtime = now, uid/gid
copied from the entry being created) — and finally inserts the entry itself,
returning success. -/
theorem CreateEntry_materializes_ancestors (now : Nat) (st : FilerState) (entry : Entry)
    (hpath : entry.fullPath = "/a/b/c")
    (h0 : lookupDirectory st "/" = none)
    (h1 : lookupDirectory st "/a" = none)
    (h2 : lookupDirectory st "/a/b" = none) :
    (CreateEntry now st entry).1.inserts
        = st.inserts ++ [mkDirEntry now "/" entry, mkDirEntry now "/a" entry,
                         mkDirEntry now "/a/b" entry, entry] ∧
    (CreateEntry now st entry).2 = Except.ok () := by
  simp only [CreateEntry, hpath]
  rw [show splitPath "/a/b/c" = ["", "a", "b", "c"] from rfl]
  rw [show (List.range (["", "a", "b", "c"] : List String).length).drop 1 = [1, 2, 3] from rfl]
  rw [createAncestors_step_none_mid now entry ["", "a", "b", "c"] 1 [2, 3] st none
      (by exact h0) (by decide)]
  simp only [show dirPathAt ["", "a", "b", "c"] 1 = "/" from rfl]
  rw [createAncestors_step_none_mid now entry ["", "a", "b", "c"] 2 [3]
      (cacheSetDirectory (storeInsertEntry st (mkDirEntry now "/" entry)) "/"
        (mkDirEntry now "/" entry) 1) none
      (by
        show lookupDirectory (cacheSetDirectory
          (storeInsertEntry st (mkDirEntry now "/" entry)) "/"
          (mkDirEntry now "/" entry) 1) "/a" = none
        rw [lookupDirectory_set_ne _ _ _ _ _ (by decide),
          lookupDirectory_insert_ne _ _ _ (by rw [mkDirEntry_fullPath]; decide)]
        exact h1)
      (by decide)]
  simp only [show dirPathAt ["", "a", "b", "c"] 2 = "/a" from rfl]
  rw [createAncestors_step_none_last now entry ["", "a", "b", "c"] 3 []
      (cacheSetDirectory (storeInsertEntry
        (cacheSetDirectory (storeInsertEntry st (mkDirEntry now "/" entry)) "/"
          (mkDirEntry now "/" entry) 1)
        (mkDirEntry now "/a" entry)) "/a" (mkDirEntry now "/a" entry) 2) none
      (by
        show lookupDirectory (cacheSetDirectory (storeInsertEntry
          (cacheSetDirectory (storeInsertEntry st (mkDirEntry now "/" entry)) "/"
            (mkDirEntry now "/" entry) 1)
          (mkDirEntry now "/a" entry)) "/a" (mkDirEntry now "/a" entry) 2) "/a/b" = none
        rw [lookupDirectory_set_ne _ _ _ _ _ (by decide),
          lookupDirectory_insert_ne _ _ _ (by rw [mkDirEntry_fullPath]; decide),
          lookupDirectory_set_ne _ _ _ _ _ (by decide),
          lookupDirectory_insert_ne _ _ _ (by rw [mkDirEntry_fullPath]; decide)]
        exact h2)
      (by decide)]
  simp only [show dirPathAt ["", "a", "b", "c"] 3 = "/a/b" from rfl]
  simp only [createAncestors]
  refine ⟨?_, trivial⟩
  simp only [reclaimChunks_inserts, storeInsertEntry_inserts, cacheSetDirectory_inserts,
    List.append_assoc, List.singleton_append, List.cons_append, List.nil_append]

/-- Witness for C6: creating `/a/b/c` in the empty state. -/
theorem CreateEntry_materializes_ancestors_witness :
    entryC6.fullPath = "/a/b/c" ∧
    lookupDirectory stEmpty "/" = none ∧
    lookupDirectory stEmpty "/a" = none ∧
    lookupDirectory stEmpty "/a/b" = none ∧
    ((CreateEntry 13 stEmpty entryC6).1.inserts
        = stEmpty.inserts ++ [mkDirEntry 13 "/" entryC6, mkDirEntry 13 "/a" entryC6,
                              mkDirEntry 13 "/a/b" entryC6, entryC6] ∧
     (CreateEntry 13 stEmpty entryC6).2 = Except.ok ()) :=
  ⟨rfl, by decide, by decide, by decide,
   CreateEntry_materializes_ancestors 13 stEmpty entryC6 rfl
     (by decide) (by decide) (by decide)⟩
